import Mathlib

/-!
# Verification of the `ddgan` dataset-construction pipeline

A shallow embedding of `biggan/data.py`: file discovery (`glob_image_files`),
image loading/cropping (`load_crop_resize_img`), the lock-guarded slot
allocator and parallel `process` workers inside `create_dataset`, the
`.npy`-file re-headering (`resize_npy_file`) at byte level, the
`temporary_file` context manager, and `get_per_replica_batch_size`.

Machine integers are modelled as `Nat` (image bytes are `uint8` values,
never overflowed by the code under study); fallible code returns `Except`;
the parallel phase is modelled as a fold over an arbitrary completion order,
which is faithful because the reservation step is guarded by a lock and all
slot writes are to distinct indices.
-/

namespace DDGan

/-! ## Sorting helper

Python's `sorted` on lists of strings: modelled as insertion sort by the
string order (the claims under study do not depend on the comparator's
details, only on `sorted` producing a deterministic list containing the
same elements). -/

/-- Lexicographic order on code-point lists (Python's string order). -/
def lexLe : List Nat → List Nat → Bool
  | [], _ => true
  | _ :: _, [] => false
  | a :: as, b :: bs =>
      if a < b then true else if b < a then false else lexLe as bs

/-- Python's `<=` on strings: code-point lexicographic. -/
def strLe (a b : String) : Bool :=
  lexLe (a.toList.map Char.toNat) (b.toList.map Char.toNat)

def insertSorted (x : String) : List String → List String
  | [] => [x]
  | y :: ys => if strLe x y then x :: y :: ys else y :: insertSorted x ys

def sortStrings (l : List String) : List String :=
  l.foldr insertSorted []

/-! ## Filesystem model for discovery

`glob_image_files` only inspects names: a root directory is a list of
immediate subdirectories, each holding files with a base name and an
extension (the part after the final dot, as written on disk). -/

structure SrcFile where
  base : String
  ext : String
  deriving DecidableEq, Repr

structure Subdir where
  name : String
  files : List SrcFile
  deriving DecidableEq, Repr

/-- Full path of a file inside a subdirectory, as `glob` would return it. -/
def filePath (d : Subdir) (f : SrcFile) : String :=
  d.name ++ "/" ++ f.base ++ "." ++ f.ext

/-- `sorted(glob.glob(os.path.join(subdir, "*." + extension)))`: the files of
`d` whose extension matches `extension` exactly (glob is case-sensitive),
as full paths in sorted order. -/
def globExt (d : Subdir) (extension : String) : List String :=
  sortStrings ((d.files.filter (fun f => f.ext = extension)).map (filePath d))

/-- `sorted(glob.glob(os.path.join(data_dir, "*/")))`: the immediate
subdirectories in sorted-by-name order. -/
def sortedSubdirs (root : List Subdir) : List Subdir :=
  (sortStrings (root.map Subdir.name)).filterMap
    (fun n => root.find? (fun d => d.name = n))

/-- Python `str.upper()` on ASCII strings, by code point. -/
def upperStr (s : String) : String :=
  String.mk (s.toList.map (fun c =>
    if 97 ≤ c.toNat ∧ c.toNat ≤ 122 then Char.ofNat (c.toNat - 32) else c))

/-- Python `str.lower()` on ASCII strings, by code point. -/
def lowerStr (s : String) : String :=
  String.mk (s.toList.map (fun c =>
    if 65 ≤ c.toNat ∧ c.toNat ≤ 90 then Char.ofNat (c.toNat + 32) else c))

/-- The inner list comprehension of `glob_image_files`: one candidate group
per `(subdirectory, extension, case)` triple, iterating subdirectories in
sorted order, extensions in order `jpg, jpeg, png`, and for each extension
first its upper-case then its lower-case form. -/
def candidateGroups (root : List Subdir) : List (List String) :=
  (sortedSubdirs root).flatMap (fun d =>
    (["jpg", "jpeg", "png"].flatMap (fun e => [upperStr e, lowerStr e])).map
      (fun e => globExt d e))

/-- The `groups` variable of `glob_image_files`: candidate groups with the
empty ones filtered out. -/
def groups (root : List Subdir) : List (List String) :=
  (candidateGroups root).filter (fun g => ¬ g.isEmpty)

/--
`glob_image_files` from `biggan/data.py`:

    files = [filename for group in groups for filename in group]
    labels = [i for i, group in enumerate(groups) for _ in group]
    return files, labels
-/
def glob_image_files (root : List Subdir) : List String × List Nat :=
  ((groups root).flatten,
   (groups root).enum.flatMap (fun p => p.2.map (fun _ => p.1)))

/-! ### Spec-side definitions for claim C1

The spec asserts that a file's label is the rank of its immediate parent
subdirectory in the sorted list of the root's subdirectories.  These
definitions follow the spec's words, to be compared against
`glob_image_files` above. -/

/-- Immediate parent directory of a path: the prefix before the first `/`. -/
def parentOf (path : String) : String :=
  String.mk (path.toList.takeWhile (fun c => c ≠ '/'))

/-- Rank of a subdirectory name in the sorted list of the root's
subdirectories, per the spec's words. -/
def subdirRank (root : List Subdir) (dname : String) : Nat :=
  (sortStrings (root.map Subdir.name)).indexOf dname

/-- Claim C1's labelling rule, stated from the spec: every file's label is
the rank of its parent subdirectory. -/
def specLabelClaim (root : List Subdir) : Prop :=
  ∀ k (hk : k < (glob_image_files root).2.length)
    (hk' : k < (glob_image_files root).1.length),
    (glob_image_files root).2.get ⟨k, hk⟩ =
      subdirRank root (parentOf ((glob_image_files root).1.get ⟨k, hk'⟩))

/-- Which group a flat position of `List.flatten` falls into. -/
def groupOf : List (List α) → Nat → Nat
  | [], _ => 0
  | g :: gs, k => if k < g.length then 0 else 1 + groupOf gs (k - g.length)

/-! ## Image model and `load_crop_resize_img`

`cv2.imread` either decodes a file into an `h × w × 3` array of bytes or
returns `None`; modelled as a map `String → Option Img` standing for the
disk contents.  Pixel values are total functions; all statements about
pixels are made on the in-bounds region. -/

structure Img where
  h : Nat
  w : Nat
  pix : Nat → Nat → Nat → Nat

inductive LoadErr where
  /-- `ImageTooSmall(size)` raised by `load_crop_resize_img`; carries the
  `(rows, cols)` size tuple. -/
  | imageTooSmall (size : Nat × Nat)
  /-- The `AttributeError` raised by `image.shape` when `cv2.imread`
  returns `None` for an unreadable file.  Not caught anywhere. -/
  | attributeError
  deriving DecidableEq, Repr

/-- Indices selected on the axis `j` by the `crop` tuple built in
`load_crop_resize_img`: `slice(None, None)` (all indices) on the minor
axis, `slice(start, start + size[min_ax])` with
`start = (size[j] - size[min_ax]) // 2` on the other axis. -/
def cropAxisIdx (size : Nat × Nat) (min_ax j : Nat) : List Nat :=
  let sj := if j = 0 then size.1 else size.2
  let sm := if min_ax = 0 then size.1 else size.2
  if j = min_ax then List.range sj
  else List.range' ((sj - sm) / 2) sm

/-- Indices selected on the channel axis by `slice(None, None, -1)`. -/
def chanIdx : List Nat := (List.range 3).reverse

/-- NumPy advanced/basic indexing `image[crop]` for one index list per
axis: the resulting image reads through the index lists. -/
def applyIdx (img : Img) (rows cols chans : List Nat) : Img :=
  { h := rows.length, w := cols.length,
    pix := fun i j c => img.pix (rows.getD i 0) (cols.getD j 0) (chans.getD c 0) }

/-- `cv2.resize(..., (s, s), interpolation=cv2.INTER_AREA)`, modelled as
pixel-area averaging in integer arithmetic: output pixel `(i, j)` averages
the source block of rows `[i*h/s, (i+1)*h/s)` and columns
`[j*w/s, (j+1)*w/s)`.  For integral scale factors this is exactly
INTER_AREA block averaging up to rounding mode; the claims under study
depend only on the output size and on which source region feeds each
output pixel, never on the rounded values. -/
def interAreaResize (img : Img) (s : Nat) : Img :=
  { h := s, w := s,
    pix := fun i j c =>
      let r0 := i * img.h / s
      let r1 := (i + 1) * img.h / s
      let c0 := j * img.w / s
      let c1 := (j + 1) * img.w / s
      let block := (List.range' r0 (r1 - r0)).flatMap (fun y =>
        (List.range' c0 (c1 - c0)).map (fun x => img.pix y x c))
      block.sum / block.length }

/-- The crop-and-reverse step of `load_crop_resize_img`: `image[crop]`
with the crop tuple built from `size` and `min_ax = np.argmin(size)`
(`argmin` returns the first minimum, so `0` when `h ≤ w`, else `1`). -/
def codeCrop (image : Img) : Img :=
  let size := (image.h, image.w)
  let min_ax := if image.h ≤ image.w then 0 else 1
  applyIdx image (cropAxisIdx size min_ax 0) (cropAxisIdx size min_ax 1) chanIdx

/-- `load_crop_resize_img` from `biggan/data.py`: decode, check the minor
dimension against `image_size`, crop, reverse channels, area-resize. -/
def load_crop_resize_img (imread : String → Option Img) (filename : String)
    (image_size : Nat) : Except LoadErr Img :=
  match imread filename with
  | none => .error .attributeError
  | some image =>
      let size := (image.h, image.w)
      let min_ax : Nat := if image.h ≤ image.w then 0 else 1
      let minDim := if min_ax = 0 then size.1 else size.2
      if minDim < image_size then
        .error (.imageTooSmall size)
      else
        .ok (interAreaResize (codeCrop image) image_size)

/-- The crop described by the spec's words: keep the full extent of the
shorter axis, take a centered run of length `shorter` on the longer axis
starting at offset `(longer - shorter) / 2`, and reverse the channel
order. -/
def specCrop (img : Img) : Img :=
  let m := min img.h img.w
  { h := m, w := m,
    pix := fun i j c => img.pix ((img.h - m) / 2 + i) ((img.w - m) / 2 + j) (2 - c) }

/-- Agreement of two images on their (equal) bounds. -/
def Img.eqOn (a b : Img) : Prop :=
  a.h = b.h ∧ a.w = b.w ∧
  ∀ i < a.h, ∀ j < a.w, ∀ c < 3, a.pix i j c = b.pix i j c

/-! ## The parallel phase of `create_dataset`

State shared by the workers: the reservation counter `mutable_target[0]`,
the two memory-mapped arrays (a slot holds `none` until some worker writes
it), and the warnings emitted by `logging.warning`.  Because the
read-increment of the counter happens inside the lock and every slot write
goes to an index owned by exactly one worker, any concurrent execution is
equivalent to running the workers one after another in their lock-
acquisition order; the order list below is that order. -/

structure RunState where
  target : Nat
  features : Nat → Option Img
  labels : Nat → Option Nat
  warnings : List (String × Nat × Nat)

def initState : RunState :=
  { target := 0, features := fun _ => none, labels := fun _ => none,
    warnings := [] }

/-- One `process(index)` worker from `create_dataset`: load the image;
on `ImageTooSmall` log a warning (recorded as `(filename, rows, cols)`)
and write nothing; on success reserve the next slot and write the tensor
and the class label there.  Any other exception propagates. -/
def process (imread : String → Option Img) (files : List String)
    (classes : List Nat) (image_size : Nat) (st : RunState) (index : Nat) :
    Except LoadErr RunState :=
  match load_crop_resize_img imread (files.getD index "") image_size with
  | .error (.imageTooSmall size) =>
      .ok { st with
            warnings := st.warnings ++ [(files.getD index "", size.1, size.2)] }
  | .error e => .error e
  | .ok img =>
      let reservation := st.target
      .ok { target := reservation + 1,
            features := fun i => if i = reservation then some img
                                 else st.features i,
            labels := fun i => if i = reservation then some (classes.getD index 0)
                               else st.labels i,
            warnings := st.warnings }

/-- `Parallel(prefer="threads")(map(process, range(num_files)))`, run in
lock-acquisition order `order`: a propagating worker exception aborts the
batch and is re-raised by `Parallel`. -/
def runAll (imread : String → Option Img) (files : List String)
    (classes : List Nat) (image_size : Nat) :
    List Nat → RunState → Except LoadErr RunState
  | [], st => .ok st
  | i :: rest, st =>
      match process imread files classes image_size st i with
      | .error e => .error e
      | .ok st1 => runAll imread files classes image_size rest st1

/-! ## The slot allocator in isolation -/

/-- The lock-guarded critical section of `process`:
`reservation = copy.copy(target[0]); target[0] += 1`, returning the
pre-increment value and the new counter. -/
def reserve (target : Nat) : Nat × Nat := (target, target + 1)

/-- `K` callers executing `reserve` under the lock, in the interleaving
given by the order of the caller list (the lock serializes the critical
sections, so every concurrent schedule is some such order).  Returns each
caller paired with the index it received, plus the final counter. -/
def runReserveAll : List α → Nat → List (α × Nat) × Nat
  | [], c => ([], c)
  | a :: rest, c =>
      let (r, c1) := reserve c
      let (pairs, cf) := runReserveAll rest c1
      ((a, r) :: pairs, cf)

/-! ## `get_per_replica_batch_size` -/

/-- `get_per_replica_batch_size` from `biggan/data.py`, with the detected
GPU count as an explicit argument: with no GPUs the batch size is returned
unchanged; with `n_gpus` GPUs it is an error unless `n_gpus` divides it,
in which case the quotient is returned. -/
def get_per_replica_batch_size (n_gpus global_batch_size : Nat) :
    Except String Nat :=
  if n_gpus = 0 then .ok global_batch_size
  else if global_batch_size % n_gpus ≠ 0 then
    .error "batch size is not evenly divisible by number of GPUs"
  else .ok (global_batch_size / n_gpus)

/-! ## Byte-level model of the `.npy` backing files

`resize_npy_file` manipulates the on-disk `.npy` format directly, so this
part of the embedding works at byte level.  The header layout implemented
by `numpy.lib.format._write_array_header` (format version 1.0): 6 magic
bytes, 2 version bytes, a 2-byte little-endian header length, the Python
`repr` of the header dict, space padding aligning the data offset to a
multiple of 64, and a final newline. -/

def strBytes (s : String) : List Nat := s.toList.map Char.toNat

/-- ASCII bytes of the decimal representation of `n`. -/
def decimalBytes (n : Nat) : List Nat := (Nat.toDigits 10 n).map Char.toNat

/-- Python `repr` of a tuple of ints, as ASCII bytes: `(5,)`,
`(5, 256, 256, 3)`. -/
def tupleReprBytes : List Nat → List Nat
  | [] => strBytes "()"
  | [a] => strBytes "(" ++ decimalBytes a ++ strBytes ",)"
  | a :: rest =>
      strBytes "(" ++ decimalBytes a ++
      rest.flatMap (fun b => strBytes ", " ++ decimalBytes b) ++ strBytes ")"

/-- ASCII apostrophe. -/
def apos : List Nat := [39]

/-- The serialized header dict
`\x7b'descr': 'DESCR', 'fortran_order': False, 'shape': SHAPE, \x7d`
(keys written in sorted order, one trailing `, ` per entry, exactly as
`_write_array_header` renders it). -/
def headerDictBytes (descr : String) (shape : List Nat) : List Nat :=
  strBytes "\x7b" ++
  apos ++ strBytes "descr" ++ apos ++ strBytes ": " ++
    apos ++ strBytes descr ++ apos ++ strBytes ", " ++
  apos ++ strBytes "fortran_order" ++ apos ++ strBytes ": False, " ++
  apos ++ strBytes "shape" ++ apos ++ strBytes ": " ++
    tupleReprBytes shape ++ strBytes ", " ++
  strBytes "\x7d"

/-- The complete `.npy` header for format version 1.0.  `padlen` is
`64 - ((MAGIC_LEN + 2 + hlen) % 64)` with `hlen = len(dict) + 1`
(the newline), so the total header length is a positive multiple of 64. -/
def npyHeaderBytes (descr : String) (shape : List Nat) : List Nat :=
  let dict := headerDictBytes descr shape
  let hlen := dict.length + 1
  let padlen := 64 - (6 + 2 + 2 + hlen) % 64
  let fullHlen := hlen + padlen
  [147] ++ strBytes "NUMPY" ++ [1, 0] ++
  [fullHlen % 256, fullHlen / 256 % 256] ++
  dict ++ List.replicate padlen 32 ++ [10]

/-- Number of array elements of a shape. -/
def prodShape (shape : List Nat) : Nat := shape.foldr (· * ·) 1

/-- A disk file: a byte length and the byte at each position below it. -/
structure Disk where
  len : Nat
  byte : Nat → Nat

/-- Overwrite the bytes `[pos, pos + bs.length)` of a file opened `rb+`,
extending it only when the write runs past the end. -/
def writeBytesAt (d : Disk) (pos : Nat) (bs : List Nat) : Disk :=
  { len := max d.len (pos + bs.length),
    byte := fun i =>
      if pos ≤ i ∧ i < pos + bs.length then bs.getD (i - pos) 0 else d.byte i }

/-- `numpy.lib.format.open_memmap(mode="w+")`: creates the backing file
holding the header for `shape` followed by `prodShape shape * itemsize`
zero bytes. -/
def open_memmap_w (descr : String) (itemsize : Nat) (shape : List Nat) :
    Disk :=
  let hdr := npyHeaderBytes descr shape
  { len := hdr.length + itemsize * prodShape shape,
    byte := fun i => if i < hdr.length then hdr.getD i 0 else 0 }

/-- A worker writing entry `idx` of the memmap: `itemsize` bytes at data
offset `hdrLen + idx * itemsize`. -/
def writeEntry (d : Disk) (hdrLen itemsize idx : Nat) (entry : List Nat) :
    Disk :=
  writeBytesAt d (hdrLen + idx * itemsize) entry

/-- `resize_npy_file` from `biggan/data.py`, at byte level:
`_write_array_header` overwrites the start of the file (opened `rb+`) with
the header for `new_shape`, touching no other byte; `offset = fp.tell()`
is the end of that header; `np.memmap(..., mode="r+", offset=offset,
shape=new_shape)` maps `prodShape new_shape * itemsize` data bytes at
`offset`, extending the file with zero bytes only when it is shorter than
`offset + prodShape new_shape * itemsize` — mode `"r+"` never shrinks a
file.  Returns the resulting disk and the data offset of the returned
memmap. -/
def resize_npy_file (d : Disk) (descr : String) (itemsize : Nat)
    (new_shape : List Nat) : Disk × Nat :=
  let hdr := npyHeaderBytes descr new_shape
  let d1 := writeBytesAt d 0 hdr
  let offset := hdr.length
  let needed := offset + itemsize * prodShape new_shape
  (if d1.len < needed then
     { len := needed, byte := fun i => if i < d1.len then d1.byte i else 0 }
   else d1, offset)

/-! ## `temporary_file` and the cleanup scope of `create_dataset` -/

/-- The temp-file namespace: a fresh-name counter and the set of existing
temporary files. -/
structure TempFS where
  next : Nat
  files : List Nat

/-- `tempfile.mkstemp()`: creates a fresh file and returns its name. -/
def mkstemp (fs : TempFS) : Nat × TempFS :=
  (fs.next, { next := fs.next + 1, files := fs.files ++ [fs.next] })

/-- `os.remove`. -/
def removeFile (fs : TempFS) (name : Nat) : TempFS :=
  { fs with files := fs.files.filter (fun f => f ≠ name) }

/-- The `temporary_file` context manager from `biggan/data.py`: `mkstemp`,
run the body — which may end normally or with a propagating error — and
remove the file in the `finally` block on either path. -/
def temporary_file (fs : TempFS)
    (body : Nat → TempFS → Except ε α × TempFS) : Except ε α × TempFS :=
  let (name, fs1) := mkstemp fs
  let (res, fs2) := body name fs1
  (res, removeFile fs2 name)

/-- The `with temporary_file() as features_file, temporary_file() as
labels_file:` block wrapping the whole body of `create_dataset` (memmap
allocation, parallel processing, finalization, archive writing): nested
scopes, the body receiving both filenames and free to end in an error. -/
def create_dataset_tempScope (fs : TempFS)
    (body : Nat → Nat → TempFS → Except ε α × TempFS) :
    Except ε α × TempFS :=
  temporary_file fs (fun f1 fs1 =>
    temporary_file fs1 (fun f2 fs2 => body f1 f2 fs2))

/-! ## Concrete inputs used by counterexamples and witnesses -/

/-- A root with one subdirectory holding a `.jpg` and a `.png` file. -/
def exRoot : List Subdir := [⟨"a", [⟨"x", "jpg"⟩, ⟨"y", "png"⟩]⟩]

/-- The spec's end-to-end example layout: `catA` with 3 images, `catB`
with 2, all sharing one extension case. -/
def exRoot2 : List Subdir :=
  [⟨"catA", [⟨"a", "jpg"⟩, ⟨"b", "jpg"⟩, ⟨"c", "jpg"⟩]⟩,
   ⟨"catB", [⟨"d", "jpg"⟩, ⟨"e", "jpg"⟩]⟩]

/-- A 200-row by 100-column image with constant pixels. -/
def tallImg : Img := ⟨200, 100, fun _ _ _ => 3⟩

/-- A large valid image. -/
def okImg : Img := ⟨300, 400, fun _ _ _ => 7⟩

/-- An image whose shorter side is 255. -/
def smallImg : Img := ⟨512, 255, fun _ _ _ => 5⟩

/-- A disk standing for everything readable as `okImg`. -/
def allOkRead : String → Option Img := fun _ => some okImg

/-- A disk on which every file is unreadable (`cv2.imread` gives `None`). -/
def noneRead : String → Option Img := fun _ => none

/-- A disk where exactly the file `catB/d.jpg` is too small for size 256
and everything else is a valid large image. -/
def oneSmallRead : String → Option Img :=
  fun f => if f = "catB/d.jpg" then some smallImg else some okImg

/-! ## Derived definitions used by the run theorems -/

/-- The invariant of the parallel phase: every reserved slot below the
counter holds a fully written `S×S×3` tensor and a label from the
discovered class list. -/
def SlotInv (classes : List Nat) (S : Nat) (st : RunState) : Prop :=
  ∀ i, i < st.target →
    (∃ img, st.features i = some img ∧ img.h = S ∧ img.w = S) ∧
    (∃ l, st.labels i = some l ∧ l ∈ classes)

/-- The warning entries a worker emits for item `idx`: one `(path, rows,
cols)` entry when the image is too small, none otherwise. -/
def smallEntries (imread : String → Option Img) (files : List String)
    (S : Nat) (idx : Nat) : List (String × Nat × Nat) :=
  match load_crop_resize_img imread (files.getD idx "") S with
  | .error (.imageTooSmall sz) => [(files.getD idx "", sz.1, sz.2)]
  | _ => []

/-! ## Concrete runs used by witnesses -/

def exFiles : List String := (glob_image_files exRoot2).1

def exClasses : List Nat := (glob_image_files exRoot2).2

def exRun5 : Except LoadErr RunState :=
  runAll allOkRead exFiles exClasses 256 [0, 1, 2, 3, 4] initState

def exRunSt5 : RunState :=
  match exRun5 with
  | .ok st => st
  | .error _ => initState

def exRun7 : Except LoadErr RunState :=
  runAll oneSmallRead exFiles exClasses 256 [0, 1, 2, 3, 4] initState

def exRunSt7 : RunState :=
  match exRun7 with
  | .ok st => st
  | .error _ => initState

/-! # Theorems -/

/-! ## C1: file discovery and labelling -/

theorem length_groupLabels (gs : List (List α)) (n : Nat) :
    ((List.enumFrom n gs).flatMap (fun p => p.2.map (fun _ => p.1))).length
      = gs.flatten.length := by
  induction gs generalizing n with
  | nil => rfl
  | cons g gs ih =>
      simp only [List.enumFrom, List.flatMap_cons, List.length_append,
        List.length_map, List.flatten_cons]
      rw [ih]

theorem getElem_groupLabels (gs : List (List α)) (n k : Nat)
    (hk : k < ((List.enumFrom n gs).flatMap
      (fun p => p.2.map (fun _ => p.1))).length) :
    ((List.enumFrom n gs).flatMap (fun p => p.2.map (fun _ => p.1)))[k]
      = n + groupOf gs k := by
  induction gs generalizing n k with
  | nil => simp [List.enumFrom] at hk
  | cons g gs ih =>
      simp only [List.enumFrom, List.flatMap_cons] at hk ⊢
      by_cases h : k < g.length
      · rw [List.getElem_append_left (by simpa using h)]
        simp [groupOf, h]
      · have hlen : (g.map (fun _ => n)).length ≤ k := by
          simpa using Nat.le_of_not_lt h
        rw [List.getElem_append_right hlen]
        rw [ih]
        simp only [List.length_map, groupOf, if_neg h]
        omega

/-- **C1** — counterexample.  The claim states that every file's label is
the rank of its immediate parent subdirectory in the sorted subdirectory
list, so that all files of one subdirectory share one label regardless of
extension.  On the root with a single subdirectory `a` holding `x.jpg`
and `y.png`, `glob_image_files` returns labels `[0, 1]`: the two files of
the same subdirectory get different labels. -/
theorem c1_counterexample : ¬ specLabelClaim exRoot :=
  fun hcl => absurd (hcl 1 (by decide) (by decide)) (by decide)

/-- **C1** (amended): `glob_image_files` returns `files` and `labels` of
equal length, and the label at flat position `k` equals the rank of the
non-empty `(subdirectory, extension, case)` group containing position `k`
in scan order — not the rank of the parent subdirectory.  Files of one
subdirectory share a label only while they stay in one such group; the
spec's 3-image/2-image example receives labels `[0, 0, 0, 1, 1]` because
each subdirectory's images share one extension case. -/
theorem c1_glob_labels_are_group_ranks (root : List Subdir) :
    (glob_image_files root).1.length = (glob_image_files root).2.length ∧
    ∀ k (hk : k < (glob_image_files root).2.length),
      (glob_image_files root).2.get ⟨k, hk⟩ = groupOf (groups root) k := by
  constructor
  · simpa [glob_image_files, List.enum]
      using (length_groupLabels (groups root) 0).symm
  · intro k hk
    have := getElem_groupLabels (groups root) 0 k
      (by simpa [glob_image_files, List.enum] using hk)
    simpa [glob_image_files, List.enum] using this

theorem c1_witness :
    ((glob_image_files exRoot2).1.length
      = (glob_image_files exRoot2).2.length) ∧
    (glob_image_files exRoot2).2.get ⟨3, by decide⟩
      = groupOf (groups exRoot2) 3 ∧
    (glob_image_files exRoot2).2 = [0, 0, 0, 1, 1] :=
  ⟨(c1_glob_labels_are_group_ranks exRoot2).1,
   (c1_glob_labels_are_group_ranks exRoot2).2 3 (by decide),
   by decide⟩

/-! ## C4: the slot allocator -/

theorem runReserveAll_from (callers : List α) (c : Nat) :
    ((runReserveAll callers c).1.map Prod.snd
      = List.range' c callers.length) ∧
    (runReserveAll callers c).2 = c + callers.length := by
  induction callers generalizing c with
  | nil => simp [runReserveAll]
  | cons a rest ih =>
      simp only [runReserveAll, reserve, List.map_cons, List.length_cons,
        List.range'_succ]
      refine ⟨by rw [(ih (c + 1)).1], by rw [(ih (c + 1)).2]; omega⟩

/-- **C4**: the reservation operation is the lock-guarded
read-increment-return `reserve`; the lock serializes the critical
sections, so an interleaving of `K` concurrent calls is an arrival order
of the `K` callers.  Every call returns the pre-increment counter value,
the `K` calls receive exactly the indices `0, 1, ..., K-1` in arrival
order — pairwise distinct, no index skipped or reused — and the counter
ends at `K`. -/
theorem c4_reserve_returns_distinct_gapless_indices (callers : List α) :
    ((runReserveAll callers 0).1.map Prod.snd
      = List.range callers.length) ∧
    ((runReserveAll callers 0).1.map Prod.snd).Nodup ∧
    (runReserveAll callers 0).2 = callers.length ∧
    ∀ c : Nat, reserve c = (c, c + 1) := by
  have h := runReserveAll_from callers 0
  refine ⟨by rw [h.1, List.range_eq_range'], ?_,
    by rw [h.2, Nat.zero_add], fun c => rfl⟩
  rw [h.1]
  exact List.nodup_range' 0 callers.length

/-! ## C8: per-replica batch size -/

/-- **C8**: with at least one detected GPU, `get_per_replica_batch_size`
fails exactly when the device count does not evenly divide the global
batch size, and otherwise returns the quotient.  (With zero GPUs the code
takes the single-replica CPU fallback and returns the batch size
unchanged; no division by a device count is involved.) -/
theorem c8_batch_size_divisibility (n_gpus g : Nat) (h : 0 < n_gpus) :
    ((∃ e, get_per_replica_batch_size n_gpus g = .error e)
      ↔ g % n_gpus ≠ 0) ∧
    (g % n_gpus = 0 →
      get_per_replica_batch_size n_gpus g = .ok (g / n_gpus)) := by
  unfold get_per_replica_batch_size
  rw [if_neg (Nat.pos_iff_ne_zero.mp h)]
  by_cases hd : g % n_gpus = 0 <;> simp [hd]

theorem c8_witness :
    ((0 : Nat) < 2 ∧
      ((∃ e, get_per_replica_batch_size 2 7 = .error e) ↔ 7 % 2 ≠ 0)) ∧
    get_per_replica_batch_size 2 6 = .ok 3 :=
  ⟨⟨by decide, (c8_batch_size_divisibility 2 7 (by decide)).1⟩,
   (c8_batch_size_divisibility 2 6 (by decide)).2 (by decide)⟩

/-! ## C9: temporary-file cleanup -/

/-- **C9**: whatever the body of `create_dataset` does between allocation
and exit — end normally or end in any propagating error, having
manipulated the temp namespace arbitrarily — the two temporary backing
files allocated by its `with temporary_file() ...` scope are absent from
the filesystem afterwards: each `finally: os.remove` runs on every exit
path. -/
theorem c9_tempfiles_always_deleted (fs : TempFS) (ε α : Type)
    (body : Nat → Nat → TempFS → Except ε α × TempFS) :
    fs.next ∉ (create_dataset_tempScope fs body).2.files ∧
    fs.next + 1 ∉ (create_dataset_tempScope fs body).2.files := by
  unfold create_dataset_tempScope temporary_file mkstemp removeFile
  constructor
  · simp [List.mem_filter]
  · intro hmem
    have h2 := (List.mem_filter.mp hmem).1
    have := (List.mem_filter.mp h2).2
    simp at this

/-! ## C2 and C10: finalization of the `.npy` backing files -/

/-- **C2** (amended): `resize_npy_file` rewrites the stored-shape header
in place — the returned memmap's data offset is the new header's length,
and the bytes below it are exactly the new header — but it does not
truncate: the file's byte length becomes `max` of its old length and
`offset + bytes needed by the new shape`, so when the new shape holds
fewer entries the old length (including the reserved-but-unused tail) is
kept; the returned memmap merely views the `used_count` leading
entries. -/
theorem c2_resize_rewrites_header_no_truncate (d : Disk) (descr : String)
    (itemsize : Nat) (new_shape : List Nat) :
    ((resize_npy_file d descr itemsize new_shape).2
      = (npyHeaderBytes descr new_shape).length) ∧
    ((resize_npy_file d descr itemsize new_shape).1.len
      = max d.len ((npyHeaderBytes descr new_shape).length
          + itemsize * prodShape new_shape)) ∧
    (∀ i, i < (npyHeaderBytes descr new_shape).length →
      (resize_npy_file d descr itemsize new_shape).1.byte i
        = (npyHeaderBytes descr new_shape).getD i 0) := by
  refine ⟨rfl, ?_, ?_⟩
  · unfold resize_npy_file writeBytesAt
    simp only []
    split <;> rename_i hsplit <;> dsimp only <;> omega
  · intro i hi
    unfold resize_npy_file writeBytesAt
    simp only []
    split <;> rename_i hsplit
    · simp only []
      rw [if_pos (by omega)]
      rw [if_pos (by omega)]
      simp
    · simp only []
      rw [if_pos (by omega)]
      simp


/-- **C10**: when the rewritten header occupies exactly as many bytes as
the original one — the requirement the claim itself names, satisfied by
every shape the pipeline produces since both headers fit a single
64-byte-aligned block — and the new shape holds no more entries than the
old, `resize_npy_file` leaves the data offset unchanged and preserves
every data byte of the file, so the entries of the returned memmap at
indices `[0, used_count)` are byte-identical to the entries written there
before finalization. -/
theorem c10_resize_preserves_written_entries (d : Disk) (descr : String)
    (itemsize : Nat) (old_shape new_shape : List Nat)
    (hhdr : (npyHeaderBytes descr new_shape).length
      = (npyHeaderBytes descr old_shape).length)
    (hsub : prodShape new_shape ≤ prodShape old_shape)
    (hfit : (npyHeaderBytes descr old_shape).length
      + itemsize * prodShape old_shape ≤ d.len) :
    ((resize_npy_file d descr itemsize new_shape).2
      = (npyHeaderBytes descr old_shape).length) ∧
    ∀ p, (npyHeaderBytes descr old_shape).length ≤ p →
      (resize_npy_file d descr itemsize new_shape).1.byte p = d.byte p := by
  have hmul : itemsize * prodShape new_shape
      ≤ itemsize * prodShape old_shape := Nat.mul_le_mul_left itemsize hsub
  unfold resize_npy_file writeBytesAt
  dsimp only
  rw [hhdr]
  refine ⟨rfl, ?_⟩
  intro p hp
  rw [if_neg (by omega)]
  dsimp only
  rw [if_neg (by omega)]

set_option maxRecDepth 100000 in
/-- **C2** — counterexample.  The labels file created for 3 int32 entries
is 140 bytes long (128-byte header plus 12 data bytes).  Finalizing it to
1 entry with `resize_npy_file` leaves it at 140 bytes — not the
132 = 128 + 4 bytes the claim requires: `np.memmap(mode="r+")` never
shrinks a file, so the reserved-but-never-written tail bytes are not
discarded from the file (only from the returned view). -/
theorem c2_counterexample :
    (resize_npy_file (open_memmap_w "<i4" 4 [3]) "<i4" 4 [1]).1.len
      = (open_memmap_w "<i4" 4 [3]).len ∧
    (resize_npy_file (open_memmap_w "<i4" 4 [3]) "<i4" 4 [1]).1.len
      ≠ (npyHeaderBytes "<i4" [1]).length + 4 * prodShape [1] :=
  ⟨by decide, by decide⟩

set_option maxRecDepth 100000 in
theorem c2_witness :
    (resize_npy_file (open_memmap_w "<i4" 4 [3]) "<i4" 4 [1]).2
      = (npyHeaderBytes "<i4" [1]).length ∧
    (resize_npy_file (open_memmap_w "<i4" 4 [3]) "<i4" 4 [1]).1.byte 5
      = (npyHeaderBytes "<i4" [1]).getD 5 0 :=
  ⟨(c2_resize_rewrites_header_no_truncate _ "<i4" 4 [1]).1,
   (c2_resize_rewrites_header_no_truncate _ "<i4" 4 [1]).2.2 5 (by decide)⟩

set_option maxRecDepth 100000 in
theorem c10_witness :
    ((npyHeaderBytes "<i4" [2]).length
      = (npyHeaderBytes "<i4" [3]).length) ∧
    (resize_npy_file
        (writeEntry (open_memmap_w "<i4" 4 [3]) 128 4 2 [9, 9, 9, 9])
        "<i4" 4 [2]).1.byte 132
      = (writeEntry (open_memmap_w "<i4" 4 [3]) 128 4 2 [9, 9, 9, 9]).byte
          132 :=
  ⟨by decide,
   (c10_resize_preserves_written_entries _ "<i4" 4 [3] [2]
    (by decide) (by decide) (by decide)).2 132 (by decide)⟩


/-! ## C6 and C7: the image transform -/

theorem getD_range (n i : Nat) (h : i < n) : (List.range n).getD i 0 = i := by
  rw [List.getD_eq_getElem?_getD, List.getElem?_eq_getElem (by simpa using h)]
  simp

theorem getD_range' (a m i : Nat) (h : i < m) :
    (List.range' a m).getD i 0 = a + i := by
  rw [List.getD_eq_getElem?_getD, List.getElem?_eq_getElem (by simpa using h)]
  simp

theorem getD_chanIdx (c : Nat) (h : c < 3) : chanIdx.getD c 0 = 2 - c := by
  interval_cases c <;> rfl

theorem codeCrop_eq (img : Img) :
    codeCrop img = applyIdx img
      (cropAxisIdx (img.h, img.w) (if img.h ≤ img.w then 0 else 1) 0)
      (cropAxisIdx (img.h, img.w) (if img.h ≤ img.w then 0 else 1) 1)
      chanIdx := rfl

theorem cropAxisIdx_00 (h w : Nat) : cropAxisIdx (h, w) 0 0 = List.range h := rfl

theorem cropAxisIdx_01 (h w : Nat) :
    cropAxisIdx (h, w) 0 1 = List.range' ((w - h) / 2) h := rfl

theorem cropAxisIdx_10 (h w : Nat) :
    cropAxisIdx (h, w) 1 0 = List.range' ((h - w) / 2) w := rfl

theorem cropAxisIdx_11 (h w : Nat) : cropAxisIdx (h, w) 1 1 = List.range w := rfl

theorem codeCrop_eqOn_specCrop (img : Img) :
    Img.eqOn (codeCrop img) (specCrop img) := by
  rw [codeCrop_eq]
  by_cases hcmp : img.h ≤ img.w
  · rw [if_pos hcmp, cropAxisIdx_00, cropAxisIdx_01]
    have hm : min img.h img.w = img.h := Nat.min_eq_left hcmp
    refine ⟨by simp [applyIdx, specCrop, hm], by simp [applyIdx, specCrop, hm], ?_⟩
    intro i hi j hj c hc
    simp only [applyIdx, List.length_range, List.length_range'] at hi hj
    simp only [applyIdx, specCrop, hm]
    rw [getD_range _ _ hi, getD_range' _ _ _ hj, getD_chanIdx _ hc]
    simp
  · rw [if_neg hcmp, cropAxisIdx_10, cropAxisIdx_11]
    have hle : img.w ≤ img.h := Nat.le_of_not_le hcmp
    have hm : min img.h img.w = img.w := Nat.min_eq_right hle
    refine ⟨by simp [applyIdx, specCrop, hm], by simp [applyIdx, specCrop, hm], ?_⟩
    intro i hi j hj c hc
    simp only [applyIdx, List.length_range, List.length_range'] at hi hj
    simp only [applyIdx, specCrop, hm]
    rw [getD_range' _ _ _ hi, getD_range _ _ hj, getD_chanIdx _ hc]
    simp

theorem load_ok_eq (imread : String → Option Img) (f : String) (S : Nat)
    (img : Img) (hread : imread f = some img)
    (hh : S ≤ img.h) (hw : S ≤ img.w) :
    load_crop_resize_img imread f S
      = .ok (interAreaResize (codeCrop img) S) := by
  unfold load_crop_resize_img
  rw [hread]
  dsimp only
  rw [if_neg (by by_cases hcmp : img.h ≤ img.w <;> simp [hcmp] <;> omega)]


/-- **C6**: for a decodable image whose shorter dimension is at least `S`,
`load_crop_resize_img` returns exactly the area-averaged `S × S` resize of
the crop; the crop equals the spec's description — full shorter axis, a
centered run of length `shorter` at offset `(longer - shorter) / 2` on the
longer axis, channels reversed; and on a 200-row by 100-column image with
`S = 50` the crop region is precisely rows `[50, 150)` and all 100
columns. -/
theorem c6_crop_resize_correct (imread : String → Option Img) (f : String)
    (S : Nat) (img : Img) (hread : imread f = some img)
    (hh : S ≤ img.h) (hw : S ≤ img.w) :
    load_crop_resize_img imread f S
      = .ok (interAreaResize (codeCrop img) S) ∧
    (interAreaResize (codeCrop img) S).h = S ∧
    (interAreaResize (codeCrop img) S).w = S ∧
    Img.eqOn (codeCrop img) (specCrop img) ∧
    cropAxisIdx (200, 100) 1 0 = List.range' 50 100 ∧
    cropAxisIdx (200, 100) 1 1 = List.range 100 :=
  ⟨load_ok_eq imread f S img hread hh hw, rfl, rfl,
   codeCrop_eqOn_specCrop img, rfl, rfl⟩

theorem c6_witness :
    load_crop_resize_img (fun _ => some tallImg) "img.jpg" 50
      = .ok (interAreaResize (codeCrop tallImg) 50) :=
  (c6_crop_resize_correct (fun _ => some tallImg) "img.jpg" 50 tallImg rfl
    (by decide) (by decide)).1

theorem load_too_small_iff (imread : String → Option Img) (f : String)
    (S : Nat) (img : Img) (hread : imread f = some img) :
    ((∃ sz, load_crop_resize_img imread f S = .error (.imageTooSmall sz))
      ↔ min img.h img.w < S) ∧
    (min img.h img.w < S →
      load_crop_resize_img imread f S
        = .error (.imageTooSmall (img.h, img.w))) := by
  unfold load_crop_resize_img
  rw [hread]
  dsimp only
  by_cases hcmp : img.h ≤ img.w
  · have hm : min img.h img.w = img.h := Nat.min_eq_left hcmp
    simp only [hcmp, if_true, if_pos rfl, hm]
    by_cases hlt : img.h < S <;> simp [hlt]
  · have hm : min img.h img.w = img.w := Nat.min_eq_right (Nat.le_of_not_le hcmp)
    simp only [hcmp, if_false, hm]
    by_cases hlt : img.w < S <;> simp [hlt]


theorem load_eval (imread : String → Option Img) (f : String) (S : Nat)
    (img : Img) (hread : imread f = some img) :
    load_crop_resize_img imread f S
      = if min img.h img.w < S
        then .error (.imageTooSmall (img.h, img.w))
        else .ok (interAreaResize (codeCrop img) S) := by
  unfold load_crop_resize_img
  rw [hread]
  dsimp only
  by_cases hcmp : img.h ≤ img.w
  · simp [hcmp, Nat.min_eq_left hcmp]
  · simp [hcmp, Nat.min_eq_right (Nat.le_of_not_le hcmp)]

theorem load_ok_shape (imread : String → Option Img) (f : String) (S : Nat)
    (img : Img) (h : load_crop_resize_img imread f S = .ok img) :
    img.h = S ∧ img.w = S := by
  cases hr : imread f with
  | none =>
      unfold load_crop_resize_img at h
      rw [hr] at h
      exact absurd h (by simp)
  | some im =>
      rw [load_eval imread f S im hr] at h
      by_cases hlt : min im.h im.w < S
      · rw [if_pos hlt] at h
        exact absurd h (by simp)
      · rw [if_neg hlt] at h
        injection h with h1
        subst h1
        exact ⟨rfl, rfl⟩

theorem readable_ok_or_small (imread : String → Option Img) (f : String)
    (S : Nat) (img : Img) (hread : imread f = some img) :
    (load_crop_resize_img imread f S).isOk = true ∨
    ∃ sz, load_crop_resize_img imread f S = .error (.imageTooSmall sz) := by
  rw [load_eval imread f S img hread]
  by_cases hlt : min img.h img.w < S
  · rw [if_pos hlt]
    exact Or.inr ⟨_, rfl⟩
  · rw [if_neg hlt]
    exact Or.inl rfl

theorem process_target (imread : String → Option Img) (files : List String)
    (classes : List Nat) (S : Nat) (st : RunState) (idx : Nat)
    (st1 : RunState) (hp : process imread files classes S st idx = .ok st1) :
    st.target ≤ st1.target ∧ st1.target ≤ st.target + 1 := by
  unfold process at hp
  split at hp
  · injection hp with h1; subst h1; dsimp only; omega
  · exact absurd hp (by simp)
  · injection hp with h1; subst h1; dsimp only; omega

theorem process_preserve (imread : String → Option Img) (files : List String)
    (classes : List Nat) (S : Nat) (st : RunState) (idx : Nat)
    (st1 : RunState) (hp : process imread files classes S st idx = .ok st1)
    (i : Nat) (hi : i < st.target) :
    st1.features i = st.features i ∧ st1.labels i = st.labels i := by
  unfold process at hp
  split at hp
  · injection hp with h1; subst h1; exact ⟨rfl, rfl⟩
  · exact absurd hp (by simp)
  · injection hp with h1; subst h1
    dsimp only
    rw [if_neg (by omega), if_neg (by omega)]
    exact ⟨rfl, rfl⟩

theorem process_slotInv (imread : String → Option Img) (files : List String)
    (classes : List Nat) (S : Nat) (st : RunState) (idx : Nat)
    (st1 : RunState) (hidx : idx < classes.length)
    (hp : process imread files classes S st idx = .ok st1)
    (hinv : SlotInv classes S st) : SlotInv classes S st1 := by
  unfold process at hp
  split at hp
  · injection hp with h1; subst h1; exact hinv
  · exact absurd hp (by simp)
  · rename_i img hload
    injection hp with h1
    subst h1
    intro i hi
    dsimp only at hi ⊢
    by_cases hieq : i = st.target
    · subst hieq
      refine ⟨⟨img, by rw [if_pos rfl], load_ok_shape _ _ _ _ hload⟩,
        ⟨classes.getD idx 0, by rw [if_pos rfl], ?_⟩⟩
      rw [List.getD_eq_getElem?_getD, List.getElem?_eq_getElem hidx]
      exact List.getElem_mem _
    · have hi' : i < st.target := by omega
      have h2 := hinv i hi'
      rw [if_neg hieq, if_neg hieq]
      exact h2

theorem runAll_ok_mono (imread : String → Option Img) (files : List String)
    (classes : List Nat) (S : Nat) (order : List Nat) (st st' : RunState)
    (h : runAll imread files classes S order st = .ok st') :
    st.target ≤ st'.target ∧
    (∀ i v, i < st.target → st.features i = some v →
      st'.features i = some v) := by
  induction order generalizing st with
  | nil =>
      unfold runAll at h
      injection h with h1
      subst h1
      exact ⟨Nat.le_refl _, fun i v _ hv => hv⟩
  | cons idx rest ih =>
      unfold runAll at h
      cases hp : process imread files classes S st idx with
      | error e => rw [hp] at h; exact absurd h (by simp)
      | ok st1 =>
          rw [hp] at h
          have h1 := process_target imread files classes S st idx st1 hp
          have h2 := ih st1 h
          refine ⟨Nat.le_trans h1.1 h2.1, fun i v hi hv => ?_⟩
          have h3 := process_preserve imread files classes S st idx st1 hp i hi
          exact h2.2 i v (Nat.lt_of_lt_of_le hi h1.1) (h3.1.trans hv)

theorem runAll_target_le (imread : String → Option Img) (files : List String)
    (classes : List Nat) (S : Nat) (order : List Nat) (st st' : RunState)
    (h : runAll imread files classes S order st = .ok st') :
    st'.target ≤ st.target + order.length := by
  induction order generalizing st with
  | nil =>
      unfold runAll at h
      injection h with h1
      subst h1
      simp
  | cons idx rest ih =>
      unfold runAll at h
      cases hp : process imread files classes S st idx with
      | error e => rw [hp] at h; exact absurd h (by simp)
      | ok st1 =>
          rw [hp] at h
          have h1 := process_target imread files classes S st idx st1 hp
          have h2 := ih st1 h
          simp only [List.length_cons]
          omega

theorem runAll_slotInv (imread : String → Option Img) (files : List String)
    (classes : List Nat) (S : Nat) (order : List Nat) (st st' : RunState)
    (hord : ∀ idx ∈ order, idx < classes.length)
    (h : runAll imread files classes S order st = .ok st')
    (hinv : SlotInv classes S st) : SlotInv classes S st' := by
  induction order generalizing st with
  | nil =>
      unfold runAll at h
      injection h with h1
      subst h1
      exact hinv
  | cons idx rest ih =>
      unfold runAll at h
      cases hp : process imread files classes S st idx with
      | error e => rw [hp] at h; exact absurd h (by simp)
      | ok st1 =>
          rw [hp] at h
          exact ih st1 (fun j hj => hord j (List.mem_cons_of_mem idx hj)) h
            (process_slotInv imread files classes S st idx st1
              (hord idx (by simp)) hp hinv)

theorem runAll_append_ok (imread : String → Option Img)
    (files : List String) (classes : List Nat) (S : Nat)
    (pre suf : List Nat) (st st1 : RunState)
    (h : runAll imread files classes S pre st = .ok st1) :
    runAll imread files classes S (pre ++ suf) st
      = runAll imread files classes S suf st1 := by
  induction pre generalizing st with
  | nil =>
      unfold runAll at h
      injection h with h1
      subst h1
      rfl
  | cons idx rest ih =>
      unfold runAll at h
      cases hp : process imread files classes S st idx with
      | error e => rw [hp] at h; exact absurd h (by simp)
      | ok stm =>
          rw [hp] at h
          have hstep : runAll imread files classes S ((idx :: rest) ++ suf) st
              = runAll imread files classes S (rest ++ suf) stm := by
            show (match process imread files classes S st idx with
                  | .error e => Except.error e
                  | .ok s => runAll imread files classes S (rest ++ suf) s)
                = _
            rw [hp]
          rw [hstep, ih stm h]

theorem runAll_complete (imread : String → Option Img) (files : List String)
    (classes : List Nat) (S : Nat) (order : List Nat) (st : RunState)
    (hord : ∀ idx ∈ order,
      (load_crop_resize_img imread (files.getD idx "") S).isOk = true ∨
      ∃ sz, load_crop_resize_img imread (files.getD idx "") S
        = .error (.imageTooSmall sz)) :
    ∃ st', runAll imread files classes S order st = .ok st' ∧
      st'.target + st'.warnings.length
        = st.target + st.warnings.length + order.length ∧
      st'.warnings
        = st.warnings ++ order.flatMap (smallEntries imread files S) := by
  induction order generalizing st with
  | nil => exact ⟨st, rfl, by simp, by simp⟩
  | cons idx rest ih =>
      rcases hord idx (by simp) with hok | ⟨sz, hsmall⟩
      · obtain ⟨img, himg⟩ : ∃ img,
            load_crop_resize_img imread (files.getD idx "") S = .ok img := by
          cases hld : load_crop_resize_img imread (files.getD idx "") S with
          | error e =>
              rw [hld] at hok
              exact absurd hok (by simp [Except.isOk, Except.toBool])
          | ok im => exact ⟨im, rfl⟩
        have hse : smallEntries imread files S idx = [] := by
          unfold smallEntries
          rw [himg]
        have hp : process imread files classes S st idx = .ok
            { target := st.target + 1,
              features := fun i => if i = st.target then some img
                                   else st.features i,
              labels := fun i => if i = st.target
                                 then some (classes.getD idx 0)
                                 else st.labels i,
              warnings := st.warnings } := by
          unfold process
          rw [himg]
        obtain ⟨st', h1, h2, h3⟩ :=
          ih { target := st.target + 1,
               features := fun i => if i = st.target then some img
                                    else st.features i,
               labels := fun i => if i = st.target
                                  then some (classes.getD idx 0)
                                  else st.labels i,
               warnings := st.warnings }
            (fun j hj => hord j (List.mem_cons_of_mem idx hj))
        have e1 : (RunState.mk (st.target + 1)
            (fun i => if i = st.target then some img else st.features i)
            (fun i => if i = st.target then some (classes.getD idx 0)
                      else st.labels i)
            st.warnings).target = st.target + 1 := rfl
        have e2 : (RunState.mk (st.target + 1)
            (fun i => if i = st.target then some img else st.features i)
            (fun i => if i = st.target then some (classes.getD idx 0)
                      else st.labels i)
            st.warnings).warnings = st.warnings := rfl
        rw [e1, e2] at h2
        rw [e2] at h3
        refine ⟨st', ?_, ?_, ?_⟩
        · unfold runAll
          rw [hp]
          exact h1
        · simp only [List.length_cons]
          omega
        · rw [h3, List.flatMap_cons, hse]
          simp
      · have hse : smallEntries imread files S idx
            = [(files.getD idx "", sz.1, sz.2)] := by
          unfold smallEntries
          rw [hsmall]
        have hp : process imread files classes S st idx = .ok
            { st with warnings := st.warnings
                ++ [(files.getD idx "", sz.1, sz.2)] } := by
          unfold process
          rw [hsmall]
        obtain ⟨st', h1, h2, h3⟩ :=
          ih { st with warnings := st.warnings
                ++ [(files.getD idx "", sz.1, sz.2)] }
            (fun j hj => hord j (List.mem_cons_of_mem idx hj))
        have e1 : ({ st with warnings := st.warnings
            ++ [(files.getD idx "", sz.1, sz.2)] } : RunState).target
            = st.target := rfl
        have e2 : ({ st with warnings := st.warnings
            ++ [(files.getD idx "", sz.1, sz.2)] } : RunState).warnings
            = st.warnings ++ [(files.getD idx "", sz.1, sz.2)] := rfl
        rw [e1, e2] at h2
        rw [e2] at h3
        refine ⟨st', ?_, ?_, ?_⟩
        · unfold runAll
          rw [hp]
          exact h1
        · simp only [List.length_cons, List.length_append,
            List.length_singleton, List.length_nil] at h2 ⊢
          omega
        · rw [h3, List.flatMap_cons, hse]
          simp


theorem glob_lengths_eq (root : List Subdir) :
    (glob_image_files root).1.length = (glob_image_files root).2.length := by
  simpa [glob_image_files, List.enum]
    using (length_groupLabels (groups root) 0).symm

theorem smallEntries_of_ok (imread : String → Option Img)
    (files : List String) (S : Nat) (idx : Nat)
    (h : (load_crop_resize_img imread (files.getD idx "") S).isOk = true) :
    smallEntries imread files S idx = [] := by
  unfold smallEntries
  cases hld : load_crop_resize_img imread (files.getD idx "") S with
  | error e =>
      rw [hld] at h
      exact absurd h (by simp [Except.isOk, Except.toBool])
  | ok im => rfl

theorem smallEntries_of_small (imread : String → Option Img)
    (files : List String) (S : Nat) (idx : Nat) (sz : Nat × Nat)
    (h : load_crop_resize_img imread (files.getD idx "") S
      = .error (.imageTooSmall sz)) :
    smallEntries imread files S idx = [(files.getD idx "", sz.1, sz.2)] := by
  unfold smallEntries
  rw [h]

theorem sum_indicator_range (n k : Nat) (hk : k < n) :
    ((List.range n).map (fun i => if i = k then 1 else 0)).sum = 1 := by
  induction n with
  | zero => exact absurd hk (Nat.not_lt_zero k)
  | succ n ih =>
      rw [List.range_succ, List.map_append, List.sum_append]
      by_cases hkn : k = n
      · subst hkn
        have hz : ((List.range k).map
            (fun i => if i = k then 1 else 0)).sum = 0 := by
          apply List.sum_eq_zero
          intro x hx
          obtain ⟨i, hi, hix⟩ := List.mem_map.mp hx
          rw [← hix, if_neg (by have := List.mem_range.mp hi; omega)]
        rw [hz]
        simp
      · rw [ih (by omega)]
        have hnk : ¬ (n = k) := fun h => hkn h.symm
        simp [hnk]

/-- **C3** — counterexample.  On a one-file dataset whose file is
unreadable (`cv2.imread` returns `None`), the worker raises the uncaught
`AttributeError` from `image.shape` and the batch aborts — it is not
logged-and-skipped as the claim states. -/
theorem c3_counterexample :
    runAll noneRead ["a/x.jpg"] [0] 256 [0] initState
      = .error LoadErr.attributeError := rfl

/-- **C3** (amended): only `ImageTooSmall` per-item failures are absorbed
at the worker boundary — logged as a warning with the path and detected
size, contributing zero output slots — and a batch whose items are all
decodable (each merely possibly too small) runs to completion; but an
unreadable file is not absorbed: decode failure raises an uncaught
`AttributeError` that propagates out of the worker and aborts the
batch. -/
theorem c3_small_absorbed_unreadable_aborts (imread : String → Option Img)
    (files : List String) (classes : List Nat) (S : Nat) (st : RunState)
    (k : Nat) :
    (∀ img, imread (files.getD k "") = some img → min img.h img.w < S →
      process imread files classes S st k = .ok
        { st with warnings := st.warnings
            ++ [(files.getD k "", img.h, img.w)] }) ∧
    (imread (files.getD k "") = none →
      process imread files classes S st k = .error .attributeError) ∧
    (∀ order, (∀ idx ∈ order, ∃ im, imread (files.getD idx "") = some im) →
      ∃ st', runAll imread files classes S order st = .ok st') := by
  refine ⟨?_, ?_, ?_⟩
  · intro img hr hs
    unfold process
    rw [(load_too_small_iff imread _ S img hr).2 hs]
  · intro hnone
    unfold process load_crop_resize_img
    rw [hnone]
  · intro order hord
    obtain ⟨st', h1, _, _⟩ := runAll_complete imread files classes S order st
      (fun idx hidx => by
        obtain ⟨im, him⟩ := hord idx hidx
        exact readable_ok_or_small imread _ S im him)
    exact ⟨st', h1⟩

set_option maxRecDepth 400000 in
theorem c3_witness :
    process oneSmallRead exFiles exClasses 256 initState 3 = .ok
      { initState with warnings := initState.warnings
          ++ [(exFiles.getD 3 "", smallImg.h, smallImg.w)] } ∧
    process noneRead ["a/x.jpg"] [0] 256 initState 0
      = .error LoadErr.attributeError :=
  ⟨(c3_small_absorbed_unreadable_aborts oneSmallRead exFiles exClasses 256
      initState 3).1 smallImg rfl (by decide),
   (c3_small_absorbed_unreadable_aborts noneRead ["a/x.jpg"] [0] 256
      initState 0).2.1 rfl⟩

/-- **C5**: in every completed run of the parallel phase over the
discovered files (any lock-acquisition order), the number of reserved
slots is at most the number of discovered files; every index below the
final counter holds a fully written `S×S×3` tensor and a label from the
discovery output; and along any run prefix the reservation counter only
grows while already-written slots are never overwritten. -/
theorem c5_pipeline_invariants (root : List Subdir)
    (imread : String → Option Img) (S : Nat) (order : List Nat)
    (st : RunState)
    (horder : order.Perm (List.range (glob_image_files root).1.length))
    (hrun : runAll imread (glob_image_files root).1
      (glob_image_files root).2 S order initState = .ok st) :
    st.target ≤ (glob_image_files root).1.length ∧
    (∀ i, i < st.target →
      (∃ img, st.features i = some img ∧ img.h = S ∧ img.w = S) ∧
      (∃ l, st.labels i = some l ∧ l ∈ (glob_image_files root).2)) ∧
    (∀ pre suf st1 st2,
      runAll imread (glob_image_files root).1 (glob_image_files root).2 S
        pre initState = .ok st1 →
      runAll imread (glob_image_files root).1 (glob_image_files root).2 S
        (pre ++ suf) initState = .ok st2 →
      st1.target ≤ st2.target ∧
      ∀ i v, i < st1.target → st1.features i = some v →
        st2.features i = some v) := by
  refine ⟨?_, ?_, ?_⟩
  · have h1 := runAll_target_le imread _ _ S order initState st hrun
    have h2 : order.length = (glob_image_files root).1.length := by
      rw [horder.length_eq, List.length_range]
    have h3 : initState.target = 0 := rfl
    omega
  · exact runAll_slotInv imread _ _ S order initState st
      (fun idx hidx => by
        have hmem : idx ∈ List.range (glob_image_files root).1.length :=
          (horder.mem_iff).mp hidx
        have := List.mem_range.mp hmem
        rw [← glob_lengths_eq root]
        exact this)
      hrun
      (fun i hi => absurd hi (by simp [initState]))
  · intro pre suf st1 st2 h1 h2
    rw [runAll_append_ok imread _ _ S pre suf initState st1 h1] at h2
    exact ⟨(runAll_ok_mono imread _ _ S suf st1 st2 h2).1,
      (runAll_ok_mono imread _ _ S suf st1 st2 h2).2⟩

theorem c5_witness : exRunSt5.target ≤ (glob_image_files exRoot2).1.length :=
  (c5_pipeline_invariants exRoot2 allOkRead 256 [0, 1, 2, 3, 4] exRunSt5
    (by have h5 : List.range (glob_image_files exRoot2).1.length
          = [0, 1, 2, 3, 4] := rfl
        rw [h5])
    rfl).1

/-- **C7**: for decodable images, `load_crop_resize_img` raises
`ImageTooSmall` exactly when the shorter spatial dimension is below `S`,
carrying the detected size; the worker boundary catches it, logs the
offending path with the detected size, and writes nothing; and a run over
all discovered files in which exactly the one file `k` is too small
completes with exactly one slot fewer than the number of discovered
files, its warning recorded. -/
theorem c7_too_small_raised_logged_skipped (imread : String → Option Img)
    (files : List String) (classes : List Nat) (S : Nat)
    (order : List Nat) (k : Nat) (img : Img)
    (horder : order.Perm (List.range files.length))
    (hk : k < files.length)
    (himg : imread (files.getD k "") = some img)
    (hsmall : min img.h img.w < S)
    (hothers : ∀ idx, idx < files.length → idx ≠ k →
      (load_crop_resize_img imread (files.getD idx "") S).isOk = true) :
    (∀ (f : String) (im : Img), imread f = some im →
      ((∃ sz, load_crop_resize_img imread f S
          = .error (.imageTooSmall sz)) ↔ min im.h im.w < S)) ∧
    load_crop_resize_img imread (files.getD k "") S
      = .error (.imageTooSmall (img.h, img.w)) ∧
    (∀ st : RunState, process imread files classes S st k = .ok
      { st with warnings := st.warnings
          ++ [(files.getD k "", img.h, img.w)] }) ∧
    (runAll imread files classes S order initState).isOk = true ∧
    (∀ st', runAll imread files classes S order initState = .ok st' →
      st'.target = files.length - 1 ∧
      (files.getD k "", img.h, img.w) ∈ st'.warnings) := by
  have herr := (load_too_small_iff imread (files.getD k "") S img himg).2
    hsmall
  have hord : ∀ idx ∈ order,
      (load_crop_resize_img imread (files.getD idx "") S).isOk = true ∨
      ∃ sz, load_crop_resize_img imread (files.getD idx "") S
        = .error (.imageTooSmall sz) := by
    intro idx hidx
    by_cases hne : idx = k
    · subst hne
      exact Or.inr ⟨(img.h, img.w), herr⟩
    · exact Or.inl (hothers idx
        (List.mem_range.mp ((horder.mem_iff).mp hidx)) hne)
  obtain ⟨st0, hrun0, hcount, hwarn⟩ :=
    runAll_complete imread files classes S order initState hord
  have hlen1 : (order.flatMap (smallEntries imread files S)).length = 1 := by
    rw [List.length_flatMap]
    show (List.map (fun a => (smallEntries imread files S a).length)
      order).sum = 1
    have hperm := (horder.map (fun a => (smallEntries imread files S a).length))
    rw [hperm.sum_eq]
    have hcongr : (List.range files.length).map
          (fun a => (smallEntries imread files S a).length)
        = (List.range files.length).map (fun i => if i = k then 1 else 0) := by
      apply List.map_congr_left
      intro idx hidx
      by_cases hne : idx = k
      · subst hne
        rw [smallEntries_of_small imread files S idx (img.h, img.w) herr]
        simp
      · rw [smallEntries_of_ok imread files S idx
          (hothers idx (List.mem_range.mp hidx) hne)]
        simp [hne]
    rw [hcongr]
    exact sum_indicator_range files.length k hk
  refine ⟨fun f im hr => (load_too_small_iff imread f S im hr).1, herr,
    ?_, ?_, ?_⟩
  · intro st
    unfold process
    rw [herr]
  · rw [hrun0]
    rfl
  · intro st' h
    have hsame : st0 = st' := by
      rw [hrun0] at h
      injection h
    subst hsame
    constructor
    · have e1 : initState.target = 0 := rfl
      have e2 : initState.warnings.length = 0 := rfl
      rw [e1, e2] at hcount
      have e3 : st0.warnings.length = 1 := by
        rw [hwarn]
        simp only [List.length_append, e2, hlen1]
      have e4 : order.length = files.length := by
        rw [horder.length_eq, List.length_range]
      omega
    · rw [hwarn]
      have e2 : initState.warnings = [] := rfl
      rw [e2]
      refine List.mem_append.mpr (Or.inr ?_)
      refine List.mem_flatMap.mpr ⟨k, ?_, ?_⟩
      · exact (horder.mem_iff).mpr (List.mem_range.mpr hk)
      · rw [smallEntries_of_small imread files S k (img.h, img.w) herr]
        simp

set_option maxRecDepth 1000000 in
theorem c7_witness : exRunSt7.target = exFiles.length - 1 :=
  ((c7_too_small_raised_logged_skipped oneSmallRead exFiles exClasses 256
      [0, 1, 2, 3, 4] 3 smallImg
      (by have h5 : List.range exFiles.length = [0, 1, 2, 3, 4] := rfl
          rw [h5])
      (by decide) rfl (by decide)
      (by intro idx hlt hne
          have h5 : exFiles.length = 5 := rfl
          rw [h5] at hlt
          interval_cases idx
          · rfl
          · rfl
          · rfl
          · exact absurd rfl hne
          · rfl)).2.2.2.2 exRunSt7 rfl).1

end DDGan
